import Mathlib

/-!
Verification of the sliding-window metrics / rate-limiter core of LLMService.

Shallow embedding of:
  * `llmservice/live_metrics.py` (`MetricsRecorder`),
  * the rate-gate wait loops of `llmservice/base_service.py`
    (`_wait_if_rate_limited_sync` / `_wait_if_token_limited_async`,
     `_secs_until_window_refresh`, `execute_generation` gating and
     `set_rate_limits`),
  * `UsageStats` of `llmservice/schemas.py`.

Conventions: Python `time.time()` timestamps and money are embedded as
rationals (ℚ), token counts as integers (ℤ); a `deque` is a `List` whose
head is the oldest element (`append` = `· ++ [x]`, `popleft` = `tail`,
`dq[0]` = `head`).  Mutating methods become functions returning the new
state; methods that both mutate and return a value return a pair.
-/

/-- State of `MetricsRecorder` (`live_metrics.py`, `__init__`, lines 102-124).
Fields mirror the Python attributes; the `threading.Lock` has no state
content and is omitted. -/
structure MetricsRecorder where
  window : ℚ
  max_rpm : Option ℚ
  max_tpm : Option ℚ
  sent_ids : List ℤ
  rcv_ids : List ℤ
  sent_ts : List ℚ
  rcv_ts : List ℚ
  tok_ts : List (ℚ × ℤ)
  total_sent : ℕ
  total_rcv : ℕ
  total_cost : ℚ
  deriving Repr, DecidableEq

namespace MetricsRecorder

/-- `MetricsRecorder.__init__(window=…, max_rpm=…, max_tpm=…)`: stores the
configuration verbatim and starts every deque and counter empty/zero.
The Python constructor performs no validation and cannot fail. -/
def init (window : ℚ) (max_rpm max_tpm : Option ℚ) : MetricsRecorder :=
  { window := window
    max_rpm := max_rpm
    max_tpm := max_tpm
    sent_ids := []
    rcv_ids := []
    sent_ts := []
    rcv_ts := []
    tok_ts := []
    total_sent := 0
    total_rcv := 0
    total_cost := 0 }

/-- `MetricsRecorder._trim_times(dq, now, window)`: when `window is None`
return unchanged, else pop from the left while the head is `< now - window`. -/
def trimTimes (dq : List ℚ) (now : ℚ) (window : Option ℚ) : List ℚ :=
  match window with
  | none => dq
  | some w => dq.dropWhile (fun t => decide (t < now - w))

/-- `MetricsRecorder._trim_tokens(now)`: pop `(time, tokens)` pairs from the
left of `tok_ts` while the time component is `< now - self.window`. -/
def trimTokens (tok : List (ℚ × ℤ)) (now : ℚ) (window : ℚ) : List (ℚ × ℤ) :=
  tok.dropWhile (fun p => decide (p.1 < now - window))

/-- `MetricsRecorder.mark_sent(req_id)` at clock reading `now`:
increment `total_sent`, append `now` to `sent_ts` and `req_id` to
`sent_ids`, then `_trim_times(sent_ts, now, window)`. -/
def markSent (r : MetricsRecorder) (req_id : ℤ) (now : ℚ) : MetricsRecorder :=
  { r with
    total_sent := r.total_sent + 1
    sent_ts := trimTimes (r.sent_ts ++ [now]) now (some r.window)
    sent_ids := r.sent_ids ++ [req_id] }

/-- `MetricsRecorder.mark_rcv(req_id, tokens=…, cost=…)` at clock reading
`now`: increment `total_rcv`, add `cost` to `total_cost`, append to
`rcv_ts`, `rcv_ids` and `tok_ts`, then trim `rcv_ts` and `tok_ts`. -/
def markRcv (r : MetricsRecorder) (req_id : ℤ) (tokens : ℤ) (cost : ℚ)
    (now : ℚ) : MetricsRecorder :=
  { r with
    total_rcv := r.total_rcv + 1
    total_cost := r.total_cost + cost
    rcv_ts := trimTimes (r.rcv_ts ++ [now]) now (some r.window)
    rcv_ids := r.rcv_ids ++ [req_id]
    tok_ts := trimTokens (r.tok_ts ++ [(now, tokens)]) now r.window }

/-- `MetricsRecorder._rpm_unlocked(now)` (and the trim it performs on
`sent_ts`): returns `len(sent_ts) * 60 / window` together with the state
whose `sent_ts` has been trimmed in place. -/
def rpmRun (r : MetricsRecorder) (now : ℚ) : ℚ × MetricsRecorder :=
  let ts := trimTimes r.sent_ts now (some r.window)
  ((ts.length : ℚ) * 60 / r.window, { r with sent_ts := ts })

/-- `MetricsRecorder._repm_unlocked(now)`. -/
def repmRun (r : MetricsRecorder) (now : ℚ) : ℚ × MetricsRecorder :=
  let ts := trimTimes r.rcv_ts now (some r.window)
  ((ts.length : ℚ) * 60 / r.window, { r with rcv_ts := ts })

/-- `MetricsRecorder._tpm_unlocked(now)`: trim `tok_ts`, then
`sum(tok for _, tok in tok_ts) * 60 / window`. -/
def tpmRun (r : MetricsRecorder) (now : ℚ) : ℚ × MetricsRecorder :=
  let tok := trimTokens r.tok_ts now r.window
  ((((tok.map Prod.snd).sum : ℤ) : ℚ) * 60 / r.window, { r with tok_ts := tok })

/-- `MetricsRecorder.is_rpm_limited()`: Python short-circuit
`max_rpm is not None and self.rpm() >= max_rpm`; `self.rpm()` trims, so the
state is threaded through. -/
def isRpmLimitedRun (r : MetricsRecorder) (now : ℚ) : Bool × MetricsRecorder :=
  match r.max_rpm with
  | none => (false, r)
  | some cap =>
    let p := rpmRun r now
    (decide (cap ≤ p.1), p.2)

/-- `MetricsRecorder.is_tpm_limited()`. -/
def isTpmLimitedRun (r : MetricsRecorder) (now : ℚ) : Bool × MetricsRecorder :=
  match r.max_tpm with
  | none => (false, r)
  | some cap =>
    let p := tpmRun r now
    (decide (cap ≤ p.1), p.2)

end MetricsRecorder

namespace BaseLLMService

open MetricsRecorder

/-- `BaseLLMService._secs_until_window_refresh(dq)` specialised to a
timestamps deque (`is_pair=False`): `0` when the deque is empty, else
`max(0.0, window - (now - dq[0]))`. -/
def secsUntilWindowRefresh (dq : List ℚ) (now window : ℚ) : ℚ :=
  match dq with
  | [] => 0
  | oldest :: _ => max 0 (window - (now - oldest))

/-- `BaseLLMService._secs_until_window_refresh(dq, is_pair=True)`: the
oldest timestamp is `dq[0][0]`. -/
def secsUntilWindowRefreshPair (dq : List (ℚ × ℤ)) (now window : ℚ) : ℚ :=
  match dq with
  | [] => 0
  | oldest :: _ => max 0 (window - (now - oldest.1))

/-- One pass of `_wait_if_rate_limited_sync` / `_wait_if_rate_limited_async`
(lines 142-167 / 115-140; the two bodies are identical except for the sleep
primitive).  `fuel` bounds the number of loop iterations still allowed to
run (running out of fuel models being interrupted while still waiting);
`delta` is the strictly positive real-clock progress that occurs between a
sleep's end and the next `time.time()` reading.  Returns
(loop exited normally?, recorder state, clock) — the recorder is mutated
only through the trims performed by `is_rpm_limited()`. -/
def waitIfRateLimited : ℕ → MetricsRecorder → ℚ → ℚ → Bool × MetricsRecorder × ℚ
  | 0, r, now, _ =>
    let p := isRpmLimitedRun r now
    (!p.1, p.2, now)
  | fuel + 1, r, now, delta =>
    let p := isRpmLimitedRun r now
    if p.1 then
      let w := secsUntilWindowRefresh p.2.sent_ts now p.2.window
      waitIfRateLimited fuel p.2 (now + w + delta) delta
    else
      (true, p.2, now)

/-- One pass of `_wait_if_token_limited_sync` / `_wait_if_token_limited_async`
(lines 199-224 / 171-196): identical shape, over `is_tpm_limited()` and
`tok_ts` with `is_pair=True`. -/
def waitIfTokenLimited : ℕ → MetricsRecorder → ℚ → ℚ → Bool × MetricsRecorder × ℚ
  | 0, r, now, _ =>
    let p := isTpmLimitedRun r now
    (!p.1, p.2, now)
  | fuel + 1, r, now, delta =>
    let p := isTpmLimitedRun r now
    if p.1 then
      let w := secsUntilWindowRefreshPair p.2.tok_ts now p.2.window
      waitIfTokenLimited fuel p.2 (now + w + delta) delta
    else
      (true, p.2, now)

/-- The gated-dispatch prefix shared by `execute_generation`
(lines 263-274) and `execute_generation_async` (lines 308-321): run the RPM
wait loop, then the TPM wait loop, and only when both have exited normally
record `mark_sent(request_id)`.  The Bool is `true` iff `mark_sent` was
reached; `false` models the caller being cancelled while still waiting
inside one of the loops (fuel exhausted), in which case the recorder state
at the moment of cancellation is returned. -/
def executeGenerationGate (r : MetricsRecorder) (req_id : ℤ) (now delta : ℚ)
    (fuelR fuelT : ℕ) : Bool × MetricsRecorder :=
  let p := waitIfRateLimited fuelR r now delta
  if p.1 then
    let q := waitIfTokenLimited fuelT p.2.1 p.2.2 delta
    if q.1 then
      (true, markSent q.2.1 req_id q.2.2)
    else
      (false, q.2.1)
  else
    (false, p.2.1)

/-- `BaseLLMService.set_rate_limits(max_rpm=…, max_tpm=…)` (lines 389-399):
each cap is overwritten only when the corresponding argument is not None. -/
def setRateLimits (r : MetricsRecorder) (max_rpm max_tpm : Option ℚ) :
    MetricsRecorder :=
  let r1 := match max_rpm with
    | none => r
    | some v => { r with max_rpm := some v }
  match max_tpm with
  | none => r1
  | some v => { r1 with max_tpm := some v }

end BaseLLMService

/-- Python's builtin `round` to the nearest integer, ties to even
(banker's rounding), on exact rationals. -/
def pyRoundInt (x : ℚ) : ℤ :=
  if x - ⌊x⌋ = 1 / 2 then
    if Even (⌊x⌋ : ℤ) then ⌊x⌋ else ⌊x⌋ + 1
  else
    round x

/-- Python's `round(x, 5)` on exact rationals. -/
def pyRound5 (x : ℚ) : ℚ :=
  (pyRoundInt (x * 100000) : ℚ) / 100000

/-- One bucket of `UsageStats` (`schemas.py`): the six keys every usage
dict carries. -/
structure Usage where
  input_tokens : ℚ
  output_tokens : ℚ
  total_tokens : ℚ
  input_cost : ℚ
  output_cost : ℚ
  total_cost : ℚ
  deriving Repr, DecidableEq

/-- The zero bucket installed by `UsageStats.__init__` and on first use of
an operation name. -/
def Usage.zero : Usage :=
  { input_tokens := 0, output_tokens := 0, total_tokens := 0
    input_cost := 0, output_cost := 0, total_cost := 0 }

/-- The `meta` argument of `UsageStats.update`: a dict in which any of the
six keys may be absent; `meta.get(k, 0)` is `Option.getD · 0`. -/
structure UsageMeta where
  input_tokens : Option ℚ
  output_tokens : Option ℚ
  total_tokens : Option ℚ
  input_cost : Option ℚ
  output_cost : Option ℚ
  total_cost : Option ℚ
  deriving Repr, DecidableEq

/-- The in-place additions `UsageStats.update` performs on one bucket:
each key gets `+= meta.get(k, 0)`, then `total_cost` (and only
`total_cost`) is re-rounded with `round(…, 5)`. -/
def Usage.addMeta (u : Usage) (m : UsageMeta) : Usage :=
  { input_tokens := u.input_tokens + m.input_tokens.getD 0
    output_tokens := u.output_tokens + m.output_tokens.getD 0
    total_tokens := u.total_tokens + m.total_tokens.getD 0
    input_cost := u.input_cost + m.input_cost.getD 0
    output_cost := u.output_cost + m.output_cost.getD 0
    total_cost := pyRound5 (u.total_cost + m.total_cost.getD 0) }

/-- `UsageStats` state: the global `total_usage` bucket plus
`operation_usage`, a dict from operation name to bucket embedded as an
insertion-ordered association list. -/
structure UsageStats where
  total_usage : Usage
  operation_usage : List (String × Usage)
  deriving Repr, DecidableEq

namespace UsageStats

/-- `UsageStats.__init__`: zero global bucket, empty per-operation dict
(the `model` attribute plays no role in any claim and is omitted). -/
def init : UsageStats :=
  { total_usage := Usage.zero, operation_usage := [] }

/-- `UsageStats.update(meta, operation_name)` (`schemas.py` lines 327-355):
add `meta` into the global bucket; if `operation_name` is not yet a key,
install a zero bucket for it; then add `meta` into that operation's
bucket.  Total function: no failure mode. -/
def update (s : UsageStats) (meta : UsageMeta) (op : String) : UsageStats :=
  { total_usage := s.total_usage.addMeta meta
    operation_usage :=
      if s.operation_usage.any (fun p => p.1 = op) then
        s.operation_usage.map
          (fun p => if p.1 = op then (p.1, p.2.addMeta meta) else p)
      else
        s.operation_usage ++ [(op, Usage.zero.addMeta meta)] }

/-- Folding a whole history of `update` calls from a given state. -/
def updates (s : UsageStats) (ms : List (UsageMeta × String)) : UsageStats :=
  ms.foldl (fun t p => t.update p.1 p.2) s

end UsageStats

/-! ### Helper lemmas about trimming -/

/-- On a time-ordered deque, popping from the left while the head is older
than the cutoff leaves exactly the entries at or after the cutoff. -/
theorem dropWhile_sorted_eq_filter (c : ℚ) :
    ∀ l : List ℚ, l.Sorted (· ≤ ·) →
      l.dropWhile (fun t => decide (t < c)) = l.filter (fun t => decide (c ≤ t)) := by
  intro l
  induction l with
  | nil => intro _; rfl
  | cons a t ih =>
    intro h
    rw [List.sorted_cons] at h
    by_cases hac : a < c
    · rw [List.dropWhile_cons_of_pos (by simpa using hac),
        List.filter_cons_of_neg (by simpa using not_le.mpr hac)]
      exact ih h.2
    · rw [List.dropWhile_cons_of_neg (by simpa using hac),
        List.filter_cons_of_pos (by simpa using not_lt.mp hac)]
      congr 1
      refine (List.filter_eq_self.mpr fun b hb => ?_).symm
      simpa using le_trans (not_lt.mp hac) (h.1 b hb)

/-- Pair version of `dropWhile_sorted_eq_filter`, ordering by the
timestamp component. -/
theorem dropWhile_sorted_fst_eq_filter (c : ℚ) :
    ∀ l : List (ℚ × ℤ), l.Sorted (fun a b => a.1 ≤ b.1) →
      l.dropWhile (fun p => decide (p.1 < c)) =
        l.filter (fun p => decide (c ≤ p.1)) := by
  intro l
  induction l with
  | nil => intro _; rfl
  | cons a t ih =>
    intro h
    rw [List.sorted_cons] at h
    by_cases hac : a.1 < c
    · rw [List.dropWhile_cons_of_pos (by simpa using hac),
        List.filter_cons_of_neg (by simpa using not_le.mpr hac)]
      exact ih h.2
    · rw [List.dropWhile_cons_of_neg (by simpa using hac),
        List.filter_cons_of_pos (by simpa using not_lt.mp hac)]
      congr 1
      refine (List.filter_eq_self.mpr fun b hb => ?_).symm
      simpa using le_trans (not_lt.mp hac) (h.1 b hb)

/-! ### C1 -/

/-- **C1.** With `window > 0` and time-ordered deques, `rpm()` returns the
number of sent timestamps within the trailing window times `60 / window`,
`tpm()` returns the sum of in-window token counts times `60 / window`, and
an empty event sequence yields exactly `0` (division is by the constant
window, never by the event count). -/
theorem C1_rate_normalization (r : MetricsRecorder) (now : ℚ)
    (hw : 0 < r.window)
    (hs : r.sent_ts.Sorted (· ≤ ·))
    (ht : r.tok_ts.Sorted (fun a b => a.1 ≤ b.1)) :
    (r.rpmRun now).1 =
      ((r.sent_ts.filter (fun t => decide (now - r.window ≤ t))).length : ℚ)
        * 60 / r.window ∧
    (r.tpmRun now).1 =
      ((((r.tok_ts.filter (fun p => decide (now - r.window ≤ p.1))).map
          Prod.snd).sum : ℤ) : ℚ) * 60 / r.window ∧
    (r.sent_ts = [] → (r.rpmRun now).1 = 0) ∧
    (r.tok_ts = [] → (r.tpmRun now).1 = 0) := by
  refine ⟨?_, ?_, ?_, ?_⟩
  · simp only [MetricsRecorder.rpmRun, MetricsRecorder.trimTimes]
    rw [dropWhile_sorted_eq_filter (now - r.window) r.sent_ts hs]
  · simp only [MetricsRecorder.tpmRun, MetricsRecorder.trimTokens]
    rw [dropWhile_sorted_fst_eq_filter (now - r.window) r.tok_ts ht]
  · intro h
    simp [MetricsRecorder.rpmRun, MetricsRecorder.trimTimes, h]
  · intro h
    simp [MetricsRecorder.tpmRun, MetricsRecorder.trimTokens, h]

/-- Concrete recorder for the C1 witness: a 10-second window holding 5
sent events and 2 token events (100 and 200 tokens). -/
def rC1 : MetricsRecorder :=
  { window := 10, max_rpm := none, max_tpm := none
    sent_ids := [1, 2, 3, 4, 5], rcv_ids := []
    sent_ts := [1, 2, 3, 4, 5], rcv_ts := []
    tok_ts := [(2, 100), (3, 200)]
    total_sent := 5, total_rcv := 0, total_cost := 0 }

/-- Witness for C1 at a concrete state: 5 events in a 10-second window
give an RPM of 30, and 300 in-window tokens give a TPM of 1800. -/
theorem C1_rate_normalization_witness :
    (rC1.rpmRun 5).1 = 30 ∧ (rC1.tpmRun 5).1 = 1800 := by
  have h := C1_rate_normalization rC1 5 (by norm_num [rC1]) (by decide) (by decide)
  constructor
  · rw [h.1]
    norm_num [rC1]
  · rw [h.2.1]
    norm_num [rC1]

/-! ### C8 -/

/-- Dropping from the left twice with the same predicate is the same as
dropping once: the head of a dropped list no longer satisfies the
predicate. -/
theorem dropWhile_dropWhile {α : Type} (p : α → Bool) :
    ∀ l : List α, (l.dropWhile p).dropWhile p = l.dropWhile p := by
  intro l
  induction l with
  | nil => rfl
  | cons a t ih =>
    by_cases h : p a = true
    · rw [List.dropWhile_cons_of_pos h]
      exact ih
    · rw [List.dropWhile_cons_of_neg (by simpa using h),
        List.dropWhile_cons_of_neg (by simpa using h)]

/-- **C8.** Trimming is idempotent: calling `rpm()`, `repm()` or `tpm()`
twice in immediate succession (same clock reading, no intervening
`mark_*`) returns the same value both times. -/
theorem C8_trim_idempotent (r : MetricsRecorder) (now : ℚ) :
    ((r.rpmRun now).2.rpmRun now).1 = (r.rpmRun now).1 ∧
    ((r.repmRun now).2.repmRun now).1 = (r.repmRun now).1 ∧
    ((r.tpmRun now).2.tpmRun now).1 = (r.tpmRun now).1 := by
  refine ⟨?_, ?_, ?_⟩
  · simp only [MetricsRecorder.rpmRun, MetricsRecorder.trimTimes]
    rw [dropWhile_dropWhile]
  · simp only [MetricsRecorder.repmRun, MetricsRecorder.trimTimes]
    rw [dropWhile_dropWhile]
  · simp only [MetricsRecorder.tpmRun, MetricsRecorder.trimTokens]
    rw [dropWhile_dropWhile]

/-! ### C9 -/

/-- **C9.** `set_rate_limits` mutates only the cap fields: the event
deques, the id deques, the lifetime totals and the window are all
unchanged, for either or both arguments provided or omitted. -/
theorem C9_set_rate_limits_frame (r : MetricsRecorder) (a b : Option ℚ) :
    (BaseLLMService.setRateLimits r a b).window = r.window ∧
    (BaseLLMService.setRateLimits r a b).sent_ts = r.sent_ts ∧
    (BaseLLMService.setRateLimits r a b).rcv_ts = r.rcv_ts ∧
    (BaseLLMService.setRateLimits r a b).tok_ts = r.tok_ts ∧
    (BaseLLMService.setRateLimits r a b).sent_ids = r.sent_ids ∧
    (BaseLLMService.setRateLimits r a b).rcv_ids = r.rcv_ids ∧
    (BaseLLMService.setRateLimits r a b).total_sent = r.total_sent ∧
    (BaseLLMService.setRateLimits r a b).total_rcv = r.total_rcv ∧
    (BaseLLMService.setRateLimits r a b).total_cost = r.total_cost := by
  cases a <;> cases b <;>
    simp [BaseLLMService.setRateLimits]

/-! ### C4 -/

/-- Folding any history of `mark_sent` calls never changes `max_rpm`. -/
theorem foldl_markSent_max_rpm (marks : List (ℤ × ℚ)) :
    ∀ r : MetricsRecorder,
      (marks.foldl (fun s q => s.markSent q.1 q.2) r).max_rpm = r.max_rpm := by
  induction marks with
  | nil => intro r; rfl
  | cons m t ih =>
    intro r
    rw [List.foldl_cons, ih]
    rfl

/-- **C4.** `is_rpm_limited()` is true iff `max_rpm` is set and the current
RPM is at least the cap (likewise `is_tpm_limited()` with `max_tpm`), and
with `max_rpm = None` the recorder is never limited after any sequence of
`mark_sent` calls. -/
theorem C4_limited_iff (r : MetricsRecorder) (now : ℚ) :
    ((r.isRpmLimitedRun now).1 = true ↔
      ∃ cap, r.max_rpm = some cap ∧ cap ≤ (r.rpmRun now).1) ∧
    ((r.isTpmLimitedRun now).1 = true ↔
      ∃ cap, r.max_tpm = some cap ∧ cap ≤ (r.tpmRun now).1) ∧
    (r.max_rpm = none →
      ∀ marks : List (ℤ × ℚ),
        (((marks.foldl (fun s q => s.markSent q.1 q.2) r)).isRpmLimitedRun
          now).1 = false) := by
  refine ⟨?_, ?_, ?_⟩
  · cases h : r.max_rpm with
    | none => simp [MetricsRecorder.isRpmLimitedRun, h]
    | some cap => simp [MetricsRecorder.isRpmLimitedRun, h]
  · cases h : r.max_tpm with
    | none => simp [MetricsRecorder.isTpmLimitedRun, h]
    | some cap => simp [MetricsRecorder.isTpmLimitedRun, h]
  · intro hnone marks
    have h := foldl_markSent_max_rpm marks r
    rw [hnone] at h
    simp [MetricsRecorder.isRpmLimitedRun, h]

/-- Fresh recorder with a 60-second window and no caps, for the C4
witness. -/
def rC4 : MetricsRecorder := MetricsRecorder.init 60 none none

/-- Witness for C4: with `max_rpm = None`, after two `mark_sent` calls the
recorder is still not rate-limited. -/
theorem C4_limited_iff_witness :
    ((([((1 : ℤ), (0 : ℚ)), (2, 0)]).foldl
        (fun s q => s.markSent q.1 q.2) rC4).isRpmLimitedRun 0).1 = false :=
  (C4_limited_iff rC4 0).2.2 rfl [(1, 0), (2, 0)]

/-! ### C6 -/

/-- **C6 counterexample.** Construction with a zero window and a zero RPM
cap does not fail: the Python constructor has no validation and no error
channel, so `MetricsRecorder(window=0, max_rpm=0)` silently returns a
fresh recorder storing the degenerate configuration verbatim. -/
theorem C6_counterexample :
    MetricsRecorder.init 0 (some 0) none =
      { window := 0, max_rpm := some 0, max_tpm := none
        sent_ids := [], rcv_ids := [], sent_ts := [], rcv_ts := [], tok_ts := []
        total_sent := 0, total_rcv := 0, total_cost := 0 } := rfl

/-- **C6 (amended).** Construction never validates its configuration: for
every window and caps — zero and negative values included — it succeeds and
stores the fields verbatim over empty event deques and zero totals
(`BaseLLMService.__init__` likewise forwards its arguments to
`MetricsRecorder` unchecked). -/
theorem C6_construction_accepts_all (w : ℚ) (mr mt : Option ℚ) :
    (MetricsRecorder.init w mr mt).window = w ∧
    (MetricsRecorder.init w mr mt).max_rpm = mr ∧
    (MetricsRecorder.init w mr mt).max_tpm = mt ∧
    (MetricsRecorder.init w mr mt).sent_ts = [] ∧
    (MetricsRecorder.init w mr mt).rcv_ts = [] ∧
    (MetricsRecorder.init w mr mt).tok_ts = [] ∧
    (MetricsRecorder.init w mr mt).total_sent = 0 ∧
    (MetricsRecorder.init w mr mt).total_rcv = 0 ∧
    (MetricsRecorder.init w mr mt).total_cost = 0 := by
  exact ⟨rfl, rfl, rfl, rfl, rfl, rfl, rfl, rfl, rfl⟩

/-! ### C5 -/

/-- **C5.** From any time-ordered state whose events all precede the clock
reading, `mark_sent` always succeeds: it appends the `(now, request_id)`
record, increments `total_sent` by exactly 1, and trims `sent_ts` so that
precisely the entries with timestamp `≥ now - window` remain (an entry
exactly at the cutoff is kept, and so is the new entry); `mark_rcv`
likewise appends to `rcv_ts`/`rcv_ids`/`tok_ts`, increments `total_rcv`,
adds `cost` to `total_cost`, and trims `rcv_ts` and `tok_ts` by the same
rule. -/
theorem C5_mark_events (r : MetricsRecorder) (id tokens : ℤ) (cost : ℚ)
    (now : ℚ)
    (hw : 0 ≤ r.window)
    (hs : r.sent_ts.Sorted (· ≤ ·)) (hsn : ∀ t ∈ r.sent_ts, t ≤ now)
    (hr : r.rcv_ts.Sorted (· ≤ ·)) (hrn : ∀ t ∈ r.rcv_ts, t ≤ now)
    (htk : r.tok_ts.Sorted (fun a b => a.1 ≤ b.1))
    (htn : ∀ p ∈ r.tok_ts, p.1 ≤ now) :
    (r.markSent id now).total_sent = r.total_sent + 1 ∧
    (r.markSent id now).sent_ids = r.sent_ids ++ [id] ∧
    (r.markSent id now).sent_ts =
      (r.sent_ts ++ [now]).filter (fun t => decide (now - r.window ≤ t)) ∧
    now ∈ (r.markSent id now).sent_ts ∧
    (r.markRcv id tokens cost now).total_rcv = r.total_rcv + 1 ∧
    (r.markRcv id tokens cost now).total_cost = r.total_cost + cost ∧
    (r.markRcv id tokens cost now).rcv_ids = r.rcv_ids ++ [id] ∧
    (r.markRcv id tokens cost now).rcv_ts =
      (r.rcv_ts ++ [now]).filter (fun t => decide (now - r.window ≤ t)) ∧
    (r.markRcv id tokens cost now).tok_ts =
      (r.tok_ts ++ [(now, tokens)]).filter
        (fun p => decide (now - r.window ≤ p.1)) := by
  have hs' : (r.sent_ts ++ [now]).Sorted (· ≤ ·) := by
    refine List.pairwise_append.mpr ⟨hs, List.sorted_singleton now,
      fun a ha b hb => ?_⟩
    rw [List.mem_singleton] at hb
    exact hb ▸ hsn a ha
  have hr' : (r.rcv_ts ++ [now]).Sorted (· ≤ ·) := by
    refine List.pairwise_append.mpr ⟨hr, List.sorted_singleton now,
      fun a ha b hb => ?_⟩
    rw [List.mem_singleton] at hb
    exact hb ▸ hrn a ha
  have htk' : (r.tok_ts ++ [(now, tokens)]).Sorted (fun a b => a.1 ≤ b.1) := by
    refine List.pairwise_append.mpr ⟨htk, List.sorted_singleton _,
      fun a ha b hb => ?_⟩
    rw [List.mem_singleton] at hb
    exact hb ▸ htn a ha
  have hsent : (r.markSent id now).sent_ts =
      (r.sent_ts ++ [now]).filter (fun t => decide (now - r.window ≤ t)) := by
    simp only [MetricsRecorder.markSent, MetricsRecorder.trimTimes]
    exact dropWhile_sorted_eq_filter (now - r.window) _ hs'
  refine ⟨rfl, rfl, hsent, ?_, rfl, rfl, rfl, ?_, ?_⟩
  · rw [hsent]
    refine List.mem_filter.mpr ⟨by simp, ?_⟩
    simp only [decide_eq_true_eq]
    linarith
  · simp only [MetricsRecorder.markRcv, MetricsRecorder.trimTimes]
    exact dropWhile_sorted_eq_filter (now - r.window) _ hr'
  · simp only [MetricsRecorder.markRcv, MetricsRecorder.trimTokens]
    exact dropWhile_sorted_fst_eq_filter (now - r.window) _ htk'

/-- Concrete recorder for the C5 witness: a 10-second window with one
in-window sent event, one event exactly at the upcoming cutoff, and one
stale event that must be trimmed. -/
def rC5 : MetricsRecorder :=
  { window := 10, max_rpm := some 3, max_tpm := none
    sent_ids := [1, 2, 3], rcv_ids := [1]
    sent_ts := [1, 2, 8], rcv_ts := [8]
    tok_ts := [(8, 50)]
    total_sent := 3, total_rcv := 1, total_cost := 1 / 100 }

/-- Witness for C5 at `now = 12` (cutoff `2`): the stale timestamp `1` is
trimmed, the cutoff timestamp `2` is kept, the new record is appended, and
the totals move by exactly one event / the given cost. -/
theorem C5_mark_events_witness :
    (rC5.markSent 4 12).total_sent = 4 ∧
    (rC5.markSent 4 12).sent_ts = [2, 8, 12] ∧
    (rC5.markSent 4 12).sent_ids = [1, 2, 3, 4] ∧
    (rC5.markRcv 4 70 (2 / 100) 12).total_cost = 3 / 100 ∧
    (rC5.markRcv 4 70 (2 / 100) 12).tok_ts = [(8, 50), (12, 70)] := by
  have h := C5_mark_events rC5 4 70 (2 / 100) 12 (by norm_num [rC5])
    (by decide) (by norm_num [rC5]) (by decide) (by norm_num [rC5])
    (by decide) (by norm_num [rC5])
  refine ⟨h.1.trans (by norm_num [rC5]), ?_, h.2.1.trans (by norm_num [rC5]),
    ?_, ?_⟩
  · rw [h.2.2.1]
    norm_num [rC5, List.filter]
  · rw [h.2.2.2.2.2.1]
    norm_num [rC5]
  · rw [h.2.2.2.2.2.2.2.2]
    norm_num [rC5, List.filter]

/-! ### C2 -/

/-- Unfolding equation for one iteration of the RPM wait loop. -/
theorem waitIfRateLimited_succ (fuel : ℕ) (r : MetricsRecorder)
    (now delta : ℚ) :
    BaseLLMService.waitIfRateLimited (fuel + 1) r now delta =
      if (MetricsRecorder.isRpmLimitedRun r now).1 then
        BaseLLMService.waitIfRateLimited fuel
          (MetricsRecorder.isRpmLimitedRun r now).2
          (now + BaseLLMService.secsUntilWindowRefresh
              (MetricsRecorder.isRpmLimitedRun r now).2.sent_ts now
              (MetricsRecorder.isRpmLimitedRun r now).2.window + delta) delta
      else (true, (MetricsRecorder.isRpmLimitedRun r now).2, now) := rfl

/-- Unfolding equation for one iteration of the TPM wait loop. -/
theorem waitIfTokenLimited_succ (fuel : ℕ) (r : MetricsRecorder)
    (now delta : ℚ) :
    BaseLLMService.waitIfTokenLimited (fuel + 1) r now delta =
      if (MetricsRecorder.isTpmLimitedRun r now).1 then
        BaseLLMService.waitIfTokenLimited fuel
          (MetricsRecorder.isTpmLimitedRun r now).2
          (now + BaseLLMService.secsUntilWindowRefreshPair
              (MetricsRecorder.isTpmLimitedRun r now).2.tok_ts now
              (MetricsRecorder.isTpmLimitedRun r now).2.window + delta) delta
      else (true, (MetricsRecorder.isTpmLimitedRun r now).2, now) := rfl

/-- After sleeping the computed refresh time plus any positive clock
progress, the oldest event is strictly older than the new cutoff, so the
next trim drops it. -/
theorem trim_after_wait (h0 : ℚ) (tl : List ℚ) (now w delta : ℚ)
    (hd : 0 < delta) :
    (MetricsRecorder.trimTimes (h0 :: tl)
        (now + max 0 (w - (now - h0)) + delta) (some w)).length ≤ tl.length := by
  have hcut : h0 < now + max 0 (w - (now - h0)) + delta - w := by
    have h1 : w - (now - h0) ≤ max 0 (w - (now - h0)) := le_max_right _ _
    linarith
  simp only [MetricsRecorder.trimTimes]
  rw [List.dropWhile_cons_of_pos (by simpa using hcut)]
  exact (List.dropWhile_sublist _).length_le

/-- Pair-deque version of `trim_after_wait`. -/
theorem trimTok_after_wait (p0 : ℚ × ℤ) (tl : List (ℚ × ℤ))
    (now w delta : ℚ) (hd : 0 < delta) :
    (MetricsRecorder.trimTokens (p0 :: tl)
        (now + max 0 (w - (now - p0.1)) + delta) w).length ≤ tl.length := by
  have hcut : p0.1 < now + max 0 (w - (now - p0.1)) + delta - w := by
    have h1 : w - (now - p0.1) ≤ max 0 (w - (now - p0.1)) := le_max_right _ _
    linarith
  simp only [MetricsRecorder.trimTokens]
  rw [List.dropWhile_cons_of_pos (by simpa using hcut)]
  exact (List.dropWhile_sublist _).length_le

/-- The RPM wait loop exits normally once the fuel exceeds the in-window
event count: every limited iteration drops at least the oldest sent event,
and with a positive cap an empty window is never limited. -/
theorem waitIfRateLimited_exits :
    ∀ (fuel : ℕ) (r : MetricsRecorder) (now delta : ℚ),
      0 < r.window → 0 < delta →
      (∀ cap, r.max_rpm = some cap → 0 < cap) →
      (MetricsRecorder.trimTimes r.sent_ts now (some r.window)).length < fuel →
      (BaseLLMService.waitIfRateLimited fuel r now delta).1 = true := by
  intro fuel
  induction fuel with
  | zero => intro r now delta _ _ _ h; omega
  | succ fuel ih =>
    intro r now delta hw hd hcap hlen
    rw [waitIfRateLimited_succ]
    cases hm : r.max_rpm with
    | none =>
      simp [MetricsRecorder.isRpmLimitedRun, hm]
    | some cap =>
      have hrun : MetricsRecorder.isRpmLimitedRun r now =
          (decide (cap ≤
            ((MetricsRecorder.trimTimes r.sent_ts now
                (some r.window)).length : ℚ) * 60 / r.window),
           { r with sent_ts :=
               MetricsRecorder.trimTimes r.sent_ts now (some r.window) }) := by
        simp [MetricsRecorder.isRpmLimitedRun, MetricsRecorder.rpmRun, hm]
      simp only [hrun]
      by_cases hlim : cap ≤
          ((MetricsRecorder.trimTimes r.sent_ts now
              (some r.window)).length : ℚ) * 60 / r.window
      · rcases eq_or_ne
          (MetricsRecorder.trimTimes r.sent_ts now (some r.window)) [] with
          hts | hne
        · exfalso
          rw [hts] at hlim
          norm_num at hlim
          linarith [hcap cap hm]
        · obtain ⟨h0, tl, hts⟩ := List.exists_cons_of_ne_nil hne
          rw [hts]
          simp only [decide_eq_true_eq, if_pos (hts ▸ hlim)]
          apply ih
          · exact hw
          · exact hd
          · intro c hc
            exact hcap c (hc ▸ hm ▸ rfl)
          · show (MetricsRecorder.trimTimes (h0 :: tl)
                (now + BaseLLMService.secsUntilWindowRefresh (h0 :: tl) now
                  r.window + delta) (some r.window)).length < fuel
            have hb := trim_after_wait h0 tl now r.window delta hd
            have htl : tl.length < fuel := by
              rw [hts] at hlen
              simpa using Nat.lt_of_succ_lt_succ hlen
            calc (MetricsRecorder.trimTimes (h0 :: tl)
                  (now + BaseLLMService.secsUntilWindowRefresh (h0 :: tl) now
                    r.window + delta) (some r.window)).length
                ≤ tl.length := by
                  simpa [BaseLLMService.secsUntilWindowRefresh] using hb
              _ < fuel := htl
      · rw [if_neg (by simpa using hlim)]

/-- TPM analogue of `waitIfRateLimited_exits`: the token wait loop exits
normally once the fuel exceeds the number of in-window token events. -/
theorem waitIfTokenLimited_exits :
    ∀ (fuel : ℕ) (r : MetricsRecorder) (now delta : ℚ),
      0 < r.window → 0 < delta →
      (∀ cap, r.max_tpm = some cap → 0 < cap) →
      (MetricsRecorder.trimTokens r.tok_ts now r.window).length < fuel →
      (BaseLLMService.waitIfTokenLimited fuel r now delta).1 = true := by
  intro fuel
  induction fuel with
  | zero => intro r now delta _ _ _ h; omega
  | succ fuel ih =>
    intro r now delta hw hd hcap hlen
    rw [waitIfTokenLimited_succ]
    cases hm : r.max_tpm with
    | none =>
      simp [MetricsRecorder.isTpmLimitedRun, hm]
    | some cap =>
      have hrun : MetricsRecorder.isTpmLimitedRun r now =
          (decide (cap ≤
            ((((MetricsRecorder.trimTokens r.tok_ts now r.window).map
                Prod.snd).sum : ℤ) : ℚ) * 60 / r.window),
           { r with tok_ts :=
               MetricsRecorder.trimTokens r.tok_ts now r.window }) := by
        simp [MetricsRecorder.isTpmLimitedRun, MetricsRecorder.tpmRun, hm]
      simp only [hrun]
      by_cases hlim : cap ≤
          ((((MetricsRecorder.trimTokens r.tok_ts now r.window).map
              Prod.snd).sum : ℤ) : ℚ) * 60 / r.window
      · rcases eq_or_ne
          (MetricsRecorder.trimTokens r.tok_ts now r.window) [] with hts | hne
        · exfalso
          rw [hts] at hlim
          norm_num at hlim
          linarith [hcap cap hm]
        · obtain ⟨p0, tl, hts⟩ := List.exists_cons_of_ne_nil hne
          rw [hts]
          simp only [decide_eq_true_eq, if_pos (hts ▸ hlim)]
          apply ih
          · exact hw
          · exact hd
          · intro c hc
            exact hcap c hc
          · show (MetricsRecorder.trimTokens (p0 :: tl)
                (now + BaseLLMService.secsUntilWindowRefreshPair (p0 :: tl)
                  now r.window + delta) r.window).length < fuel
            have hb := trimTok_after_wait p0 tl now r.window delta hd
            have htl : tl.length < fuel := by
              rw [hts] at hlen
              simpa using Nat.lt_of_succ_lt_succ hlen
            calc (MetricsRecorder.trimTokens (p0 :: tl)
                  (now + BaseLLMService.secsUntilWindowRefreshPair (p0 :: tl)
                    now r.window + delta) r.window).length
                ≤ tl.length := by
                  simpa [BaseLLMService.secsUntilWindowRefreshPair] using hb
              _ < fuel := htl
      · rw [if_neg (by simpa using hlim)]

/-- **C2.** In every state in which a wait loop runs (positive window,
positive caps where set, positive real-clock progress `delta` between
iterations): the pause computed on each iteration is
`max(0, window - (now - oldest_in_window_timestamp))` (`0` on an empty
deque), and both the RPM and the TPM loop terminate — fuel equal to the
current event-deque length plus one already suffices for the loop to exit
normally, because events are only removed, never re-added. -/
theorem C2_wait_loop_refresh_and_termination (r : MetricsRecorder)
    (now delta : ℚ)
    (hw : 0 < r.window) (hd : 0 < delta)
    (hrpm : ∀ cap, r.max_rpm = some cap → 0 < cap)
    (htpm : ∀ cap, r.max_tpm = some cap → 0 < cap) :
    (BaseLLMService.secsUntilWindowRefresh [] now r.window = 0) ∧
    (∀ (t : ℚ) (rest : List ℚ),
      BaseLLMService.secsUntilWindowRefresh (t :: rest) now r.window =
        max 0 (r.window - (now - t))) ∧
    (∀ (p : ℚ × ℤ) (rest : List (ℚ × ℤ)),
      BaseLLMService.secsUntilWindowRefreshPair (p :: rest) now r.window =
        max 0 (r.window - (now - p.1))) ∧
    (BaseLLMService.waitIfRateLimited (r.sent_ts.length + 1) r now delta).1 =
      true ∧
    (BaseLLMService.waitIfTokenLimited (r.tok_ts.length + 1) r now delta).1 =
      true := by
  refine ⟨rfl, fun t rest => rfl, fun p rest => rfl, ?_, ?_⟩
  · apply waitIfRateLimited_exits (r.sent_ts.length + 1) r now delta hw hd hrpm
    have h1 : (r.sent_ts.dropWhile
        (fun t => decide (t < now - r.window))).length ≤ r.sent_ts.length :=
      (List.dropWhile_sublist _).length_le
    simp only [MetricsRecorder.trimTimes]
    omega
  · apply waitIfTokenLimited_exits (r.tok_ts.length + 1) r now delta hw hd htpm
    have h1 : (r.tok_ts.dropWhile
        (fun p => decide (p.1 < now - r.window))).length ≤ r.tok_ts.length :=
      (List.dropWhile_sublist _).length_le
    simp only [MetricsRecorder.trimTokens]
    omega

/-- Rate-limited concrete recorder for the C2 witness: one sent event and
one token event inside a 10-second window, with caps 1 RPM / 1 TPM. -/
def rC2 : MetricsRecorder :=
  { window := 10, max_rpm := some 1, max_tpm := some 1
    sent_ids := [1], rcv_ids := [1]
    sent_ts := [0], rcv_ts := [0]
    tok_ts := [(0, 100)]
    total_sent := 1, total_rcv := 1, total_cost := 0 }

/-- Witness for C2: from the rate-limited state `rC2` both wait loops exit
normally within the proven fuel bound. -/
theorem C2_wait_loop_refresh_and_termination_witness :
    (BaseLLMService.waitIfRateLimited (rC2.sent_ts.length + 1) rC2 5 1).1 =
      true ∧
    (BaseLLMService.waitIfTokenLimited (rC2.tok_ts.length + 1) rC2 5 1).1 =
      true := by
  have h := C2_wait_loop_refresh_and_termination rC2 5 1 (by norm_num [rC2])
    (by norm_num)
    (fun cap hc => by
      rw [show rC2.max_rpm = some 1 from rfl] at hc
      rw [← Option.some_inj.mp hc]
      norm_num)
    (fun cap hc => by
      rw [show rC2.max_tpm = some 1 from rfl] at hc
      rw [← Option.some_inj.mp hc]
      norm_num)
  exact ⟨h.2.2.2.1, h.2.2.2.2⟩

/-! ### C3 -/

/-- The RPM limit check mutates the recorder only by trimming `sent_ts`:
`total_sent` and `sent_ids` are untouched. -/
theorem isRpmLimitedRun_frame (r : MetricsRecorder) (now : ℚ) :
    (r.isRpmLimitedRun now).2.total_sent = r.total_sent ∧
    (r.isRpmLimitedRun now).2.sent_ids = r.sent_ids := by
  cases h : r.max_rpm <;>
    simp [MetricsRecorder.isRpmLimitedRun, MetricsRecorder.rpmRun, h]

/-- The TPM limit check mutates the recorder only by trimming `tok_ts`. -/
theorem isTpmLimitedRun_frame (r : MetricsRecorder) (now : ℚ) :
    (r.isTpmLimitedRun now).2.total_sent = r.total_sent ∧
    (r.isTpmLimitedRun now).2.sent_ids = r.sent_ids := by
  cases h : r.max_tpm <;>
    simp [MetricsRecorder.isTpmLimitedRun, MetricsRecorder.tpmRun, h]

/-- However long the RPM wait loop runs (any fuel, hence any point of
interruption), it records no send event: `total_sent` and `sent_ids` are
exactly as before the loop. -/
theorem waitIfRateLimited_no_mark :
    ∀ (fuel : ℕ) (r : MetricsRecorder) (now delta : ℚ),
      (BaseLLMService.waitIfRateLimited fuel r now delta).2.1.total_sent =
        r.total_sent ∧
      (BaseLLMService.waitIfRateLimited fuel r now delta).2.1.sent_ids =
        r.sent_ids := by
  intro fuel
  induction fuel with
  | zero =>
    intro r now delta
    exact isRpmLimitedRun_frame r now
  | succ fuel ih =>
    intro r now delta
    rw [waitIfRateLimited_succ]
    by_cases hb : (r.isRpmLimitedRun now).1 = true
    · rw [if_pos hb]
      have h1 := ih (r.isRpmLimitedRun now).2
        (now + BaseLLMService.secsUntilWindowRefresh
          (r.isRpmLimitedRun now).2.sent_ts now
          (r.isRpmLimitedRun now).2.window + delta) delta
      have h2 := isRpmLimitedRun_frame r now
      exact ⟨h1.1.trans h2.1, h1.2.trans h2.2⟩
    · rw [if_neg hb]
      exact isRpmLimitedRun_frame r now

/-- TPM analogue of `waitIfRateLimited_no_mark`. -/
theorem waitIfTokenLimited_no_mark :
    ∀ (fuel : ℕ) (r : MetricsRecorder) (now delta : ℚ),
      (BaseLLMService.waitIfTokenLimited fuel r now delta).2.1.total_sent =
        r.total_sent ∧
      (BaseLLMService.waitIfTokenLimited fuel r now delta).2.1.sent_ids =
        r.sent_ids := by
  intro fuel
  induction fuel with
  | zero =>
    intro r now delta
    exact isTpmLimitedRun_frame r now
  | succ fuel ih =>
    intro r now delta
    rw [waitIfTokenLimited_succ]
    by_cases hb : (r.isTpmLimitedRun now).1 = true
    · rw [if_pos hb]
      have h1 := ih (r.isTpmLimitedRun now).2
        (now + BaseLLMService.secsUntilWindowRefreshPair
          (r.isTpmLimitedRun now).2.tok_ts now
          (r.isTpmLimitedRun now).2.window + delta) delta
      have h2 := isTpmLimitedRun_frame r now
      exact ⟨h1.1.trans h2.1, h1.2.trans h2.2⟩
    · rw [if_neg hb]
      exact isTpmLimitedRun_frame r now

/-- **C3.** In the gated dispatch shared by `execute_generation` and
`execute_generation_async`, `mark_sent` is recorded only after both wait
loops exit normally: if the gate completed, exactly one send event for
this request was recorded; if the caller was cancelled while still waiting
inside either loop, no send event whatsoever was recorded. -/
theorem C3_mark_sent_after_both_loops (r : MetricsRecorder) (req_id : ℤ)
    (now delta : ℚ) (fuelR fuelT : ℕ) :
    ((BaseLLMService.executeGenerationGate r req_id now delta fuelR
        fuelT).1 = true →
      (BaseLLMService.executeGenerationGate r req_id now delta fuelR
        fuelT).2.total_sent = r.total_sent + 1 ∧
      (BaseLLMService.executeGenerationGate r req_id now delta fuelR
        fuelT).2.sent_ids = r.sent_ids ++ [req_id]) ∧
    ((BaseLLMService.executeGenerationGate r req_id now delta fuelR
        fuelT).1 = false →
      (BaseLLMService.executeGenerationGate r req_id now delta fuelR
        fuelT).2.total_sent = r.total_sent ∧
      (BaseLLMService.executeGenerationGate r req_id now delta fuelR
        fuelT).2.sent_ids = r.sent_ids) := by
  have hR := waitIfRateLimited_no_mark fuelR r now delta
  unfold BaseLLMService.executeGenerationGate
  by_cases hp : (BaseLLMService.waitIfRateLimited fuelR r now delta).1 = true
  · rw [if_pos hp]
    have hT := waitIfTokenLimited_no_mark fuelT
      (BaseLLMService.waitIfRateLimited fuelR r now delta).2.1
      (BaseLLMService.waitIfRateLimited fuelR r now delta).2.2 delta
    by_cases hq : (BaseLLMService.waitIfTokenLimited fuelT
        (BaseLLMService.waitIfRateLimited fuelR r now delta).2.1
        (BaseLLMService.waitIfRateLimited fuelR r now delta).2.2 delta).1 =
        true
    · rw [if_pos hq]
      constructor
      · intro _
        constructor
        · show (BaseLLMService.waitIfTokenLimited fuelT _ _
              delta).2.1.total_sent + 1 = r.total_sent + 1
          rw [hT.1, hR.1]
        · show (BaseLLMService.waitIfTokenLimited fuelT _ _
              delta).2.1.sent_ids ++ [req_id] = r.sent_ids ++ [req_id]
          rw [hT.2, hR.2]
      · intro hfalse
        exact absurd hfalse (by simp)
    · rw [if_neg hq]
      constructor
      · intro htrue
        exact absurd htrue (by simp)
      · intro _
        exact ⟨hT.1.trans hR.1, hT.2.trans hR.2⟩
  · rw [if_neg hp]
    constructor
    · intro htrue
      exact absurd htrue (by simp)
    · intro _
      exact ⟨hR.1, hR.2⟩

/-- Fresh uncapped recorder: its gate completes immediately. -/
def rC3 : MetricsRecorder := MetricsRecorder.init 60 none none

/-- Degenerate recorder with `max_rpm = 0`: its gate never stops waiting,
so a cancelled caller ends the dispatch inside the RPM loop. -/
def rC3b : MetricsRecorder := MetricsRecorder.init 10 (some 0) none

/-- Witness for C3: a completed gate records exactly one send event, and a
gate cancelled while waiting (degenerate cap, fuel exhausted inside the
loop) records none. -/
theorem C3_mark_sent_after_both_loops_witness :
    (BaseLLMService.executeGenerationGate rC3 7 0 1 0 0).2.total_sent =
      rC3.total_sent + 1 ∧
    (BaseLLMService.executeGenerationGate rC3b 9 0 1 0 0).2.total_sent =
      rC3b.total_sent ∧
    (BaseLLMService.executeGenerationGate rC3b 9 0 1 0 0).2.sent_ids =
      rC3b.sent_ids := by
  have hdone : (BaseLLMService.executeGenerationGate rC3 7 0 1 0 0).1 =
      true := by
    norm_num [BaseLLMService.executeGenerationGate,
      BaseLLMService.waitIfRateLimited, BaseLLMService.waitIfTokenLimited,
      MetricsRecorder.isRpmLimitedRun, MetricsRecorder.isTpmLimitedRun, rC3,
      MetricsRecorder.init]
  have hcancel : (BaseLLMService.executeGenerationGate rC3b 9 0 1 0 0).1 =
      false := by
    norm_num [BaseLLMService.executeGenerationGate,
      BaseLLMService.waitIfRateLimited, MetricsRecorder.isRpmLimitedRun,
      MetricsRecorder.rpmRun, MetricsRecorder.trimTimes, rC3b,
      MetricsRecorder.init]
  have h1 := (C3_mark_sent_after_both_loops rC3 7 0 1 0 0).1 hdone
  have h2 := (C3_mark_sent_after_both_loops rC3b 9 0 1 0 0).2 hcancel
  exact ⟨h1.1, h2.1, h2.2⟩

/-! ### C7 -/

/-- Modifying the bucket of a key that does not occur leaves the
association list unchanged. -/
theorem map_modify_of_not_mem (op : String) (φ : Usage → Usage) :
    ∀ l : List (String × Usage), op ∉ l.map Prod.fst →
      l.map (fun p => if p.1 = op then (p.1, φ p.2) else p) = l := by
  intro l
  induction l with
  | nil => intro _; rfl
  | cons a t ih =>
    intro h
    rw [List.map_cons, List.mem_cons] at h
    push_neg at h
    rw [List.map_cons, if_neg (fun hc => h.1 hc.symm), ih h.2]

/-- `lookup` at a key other than the modified one is unchanged by a
bucket modification. -/
theorem lookup_map_modify_ne (op op' : String) (φ : Usage → Usage)
    (hne : op' ≠ op) :
    ∀ l : List (String × Usage),
      List.lookup op'
          (l.map (fun p => if p.1 = op then (p.1, φ p.2) else p)) =
        List.lookup op' l := by
  intro l
  induction l with
  | nil => rfl
  | cons a t ih =>
    by_cases hk : a.1 = op
    · rw [List.map_cons, if_pos hk]
      have hbe : (op' == a.1) = false :=
        beq_eq_false_iff_ne.mpr (by rw [hk]; exact hne)
      simp only [List.lookup, hbe]
      exact ih
    · rw [List.map_cons, if_neg hk]
      by_cases hb : op' = a.1
      · simp only [List.lookup, hb, beq_self_eq_true]
      · have hbe : (op' == a.1) = false := beq_eq_false_iff_ne.mpr hb
        simp only [List.lookup, hbe]
        exact ih

/-- `lookup` at the modified key returns the modified bucket whenever the
key was present. -/
theorem lookup_map_modify_self (op : String) (φ : Usage → Usage) :
    ∀ (l : List (String × Usage)) (v : Usage),
      List.lookup op l = some v →
      List.lookup op
          (l.map (fun p => if p.1 = op then (p.1, φ p.2) else p)) =
        some (φ v) := by
  intro l
  induction l with
  | nil => intro v h; exact absurd h (by simp)
  | cons a t ih =>
    intro v h
    by_cases hb : op = a.1
    · have hbe : (op == a.1) = true := beq_iff_eq.mpr hb
      rw [List.map_cons, if_pos hb.symm]
      simp only [List.lookup, hbe] at h ⊢
      rw [Option.some_inj.mp h]
    · have hbe : (op == a.1) = false := beq_eq_false_iff_ne.mpr hb
      simp only [List.lookup, hbe] at h
      by_cases hk : a.1 = op
      · exact absurd hk.symm hb
      · rw [List.map_cons, if_neg hk]
        simp only [List.lookup, hbe]
        exact ih v h

/-- A key on which `any` succeeds has a bucket found by `lookup`. -/
theorem lookup_of_any (op : String) :
    ∀ l : List (String × Usage), l.any (fun p => p.1 = op) = true →
      ∃ v, List.lookup op l = some v := by
  intro l
  induction l with
  | nil => intro h; exact absurd h (by simp)
  | cons a t ih =>
    intro h
    by_cases hb : op = a.1
    · exact ⟨a.2, by simp only [List.lookup, beq_iff_eq.mpr hb]⟩
    · have hbe : (op == a.1) = false := beq_eq_false_iff_ne.mpr hb
      rw [List.any_cons] at h
      have hd : decide (a.1 = op) = false :=
        decide_eq_false (fun hc => hb hc.symm)
      rw [hd, Bool.false_or] at h
      obtain ⟨v, hv⟩ := ih h
      exact ⟨v, by simp only [List.lookup, hbe]; exact hv⟩

/-- A key on which `any` fails has no bucket. -/
theorem lookup_eq_none_of_not_any (op : String) :
    ∀ l : List (String × Usage), l.any (fun p => p.1 = op) = false →
      List.lookup op l = none := by
  intro l
  induction l with
  | nil => intro _; rfl
  | cons a t ih =>
    intro h
    rw [List.any_cons, Bool.or_eq_false_iff] at h
    have hbe : (op == a.1) = false := by
      refine beq_eq_false_iff_ne.mpr fun hc => ?_
      exact of_decide_eq_false h.1 hc.symm
    simp only [List.lookup, hbe]
    exact ih h.2

/-- Appending a bucket for an absent key makes `lookup` find it. -/
theorem lookup_append_self (op : String) (x : Usage) :
    ∀ l : List (String × Usage), List.lookup op l = none →
      List.lookup op (l ++ [(op, x)]) = some x := by
  intro l
  induction l with
  | nil => intro _; simp [List.lookup]
  | cons a t ih =>
    intro h
    by_cases hb : op = a.1
    · rw [show List.lookup op (a :: t) = some a.2 from by
        simp only [List.lookup, beq_iff_eq.mpr hb]] at h
      exact absurd h (by simp)
    · have hbe : (op == a.1) = false := beq_eq_false_iff_ne.mpr hb
      simp only [List.lookup, hbe] at h
      rw [List.cons_append]
      simp only [List.lookup, hbe]
      exact ih h

/-- Appending a bucket for another key leaves `lookup` unchanged. -/
theorem lookup_append_ne (op op' : String) (x : Usage) (hne : op' ≠ op) :
    ∀ l : List (String × Usage),
      List.lookup op' (l ++ [(op, x)]) = List.lookup op' l := by
  intro l
  induction l with
  | nil =>
    simp only [List.nil_append, List.lookup, beq_eq_false_iff_ne.mpr hne]
  | cons a t ih =>
    by_cases hb : op' = a.1
    · rw [List.cons_append]
      simp only [List.lookup, beq_iff_eq.mpr hb]
    · have hbe : (op' == a.1) = false := beq_eq_false_iff_ne.mpr hb
      rw [List.cons_append]
      simp only [List.lookup, hbe]
      exact ih

/-- **C7.** `UsageStats.update` never fails; it adds each of the six usage
fields — a missing key contributing 0 — into both the global total and the
per-operation bucket, creates the bucket on first use, leaves every other
bucket untouched, and re-rounds the `total_cost` accumulators (global and
per-operation) to 5 decimal places after every update. -/
theorem C7_usage_update (s : UsageStats) (meta : UsageMeta) (op : String) :
    (s.update meta op).total_usage.input_tokens =
      s.total_usage.input_tokens + meta.input_tokens.getD 0 ∧
    (s.update meta op).total_usage.output_tokens =
      s.total_usage.output_tokens + meta.output_tokens.getD 0 ∧
    (s.update meta op).total_usage.total_tokens =
      s.total_usage.total_tokens + meta.total_tokens.getD 0 ∧
    (s.update meta op).total_usage.input_cost =
      s.total_usage.input_cost + meta.input_cost.getD 0 ∧
    (s.update meta op).total_usage.output_cost =
      s.total_usage.output_cost + meta.output_cost.getD 0 ∧
    (s.update meta op).total_usage.total_cost =
      pyRound5 (s.total_usage.total_cost + meta.total_cost.getD 0) ∧
    List.lookup op (s.update meta op).operation_usage =
      some (((List.lookup op s.operation_usage).getD Usage.zero).addMeta
        meta) ∧
    (∀ op', op' ≠ op →
      List.lookup op' (s.update meta op).operation_usage =
        List.lookup op' s.operation_usage) := by
  refine ⟨rfl, rfl, rfl, rfl, rfl, rfl, ?_, ?_⟩
  · simp only [UsageStats.update]
    by_cases hany : s.operation_usage.any (fun p => p.1 = op) = true
    · rw [if_pos hany]
      obtain ⟨v, hv⟩ := lookup_of_any op s.operation_usage hany
      rw [lookup_map_modify_self op (fun u => u.addMeta meta)
        s.operation_usage v hv, hv]
      rfl
    · rw [if_neg hany]
      have hnone := lookup_eq_none_of_not_any op s.operation_usage
        (Bool.not_eq_true _ ▸ Bool.of_not_eq_true hany)
      rw [lookup_append_self op _ s.operation_usage hnone, hnone]
      rfl
  · intro op' hne
    simp only [UsageStats.update]
    by_cases hany : s.operation_usage.any (fun p => p.1 = op) = true
    · rw [if_pos hany]
      exact lookup_map_modify_ne op op' (fun u => u.addMeta meta) hne
        s.operation_usage
    · rw [if_neg hany]
      exact lookup_append_ne op op' _ hne s.operation_usage

/-- The usage dict of the spec's worked example:
`{'input_tokens':10,'output_tokens':5,'total_tokens':15,'total_cost':0.001}`
(the two cost keys `input_cost`/`output_cost` are absent). -/
def mC7 : UsageMeta :=
  { input_tokens := some 10, output_tokens := some 5, total_tokens := some 15
    input_cost := none, output_cost := none, total_cost := some (1 / 1000) }

/-- Witness for C7: the same usage dict recorded under `op_a` and then
`op_b` yields a global total of 30 tokens / 0.002 cost, with each
operation bucket individually showing 15 tokens / 0.001 cost. -/
theorem C7_usage_update_witness :
    ((UsageStats.init.update mC7 "op_a").update mC7
        "op_b").total_usage.total_tokens = 30 ∧
    ((UsageStats.init.update mC7 "op_a").update mC7
        "op_b").total_usage.total_cost = 1 / 500 ∧
    List.lookup "op_a" ((UsageStats.init.update mC7 "op_a").update mC7
        "op_b").operation_usage =
      some { input_tokens := 10, output_tokens := 5, total_tokens := 15
             input_cost := 0, output_cost := 0, total_cost := 1 / 1000 } ∧
    List.lookup "op_b" ((UsageStats.init.update mC7 "op_a").update mC7
        "op_b").operation_usage =
      some { input_tokens := 10, output_tokens := 5, total_tokens := 15
             input_cost := 0, output_cost := 0, total_cost := 1 / 1000 } := by
  have h1 := C7_usage_update UsageStats.init mC7 "op_a"
  have h2 := C7_usage_update (UsageStats.init.update mC7 "op_a") mC7 "op_b"
  have ha : (UsageStats.init.update mC7 "op_a").total_usage.total_tokens =
      15 := by
    rw [h1.2.2.1]
    norm_num [UsageStats.init, Usage.zero, mC7]
  have hacost : (UsageStats.init.update mC7 "op_a").total_usage.total_cost =
      1 / 1000 := by
    rw [h1.2.2.2.2.2.1]
    norm_num [UsageStats.init, Usage.zero, mC7, pyRound5, pyRoundInt]
  refine ⟨?_, ?_, ?_, ?_⟩
  · rw [h2.2.2.1, ha]
    norm_num [mC7]
  · rw [h2.2.2.2.2.2.1, hacost]
    norm_num [mC7, pyRound5, pyRoundInt]
  · rw [h2.2.2.2.2.2.2.2 "op_a" (by decide), h1.2.2.2.2.2.2.1]
    norm_num [UsageStats.init, Usage.zero, Usage.addMeta, mC7, pyRound5,
      pyRoundInt, Usage.mk.injEq]
  · rw [h2.2.2.2.2.2.2.1]
    have hb : List.lookup "op_b"
        (UsageStats.init.update mC7 "op_a").operation_usage = none := by
      rw [h1.2.2.2.2.2.2.2 "op_b" (by decide)]
      rfl
    rw [hb]
    norm_num [Usage.zero, Usage.addMeta, mC7, pyRound5, pyRoundInt,
      Usage.mk.injEq]

/-! ### C10 -/

/-- Banker's rounding moves a rational by at most one half. -/
theorem pyRoundInt_abs_le (x : ℚ) : |(pyRoundInt x : ℚ) - x| ≤ 1 / 2 := by
  unfold pyRoundInt
  by_cases h : x - ⌊x⌋ = 1 / 2
  · by_cases he : Even (⌊x⌋ : ℤ)
    · rw [if_pos h, if_pos he, abs_le]
      constructor <;> linarith
    · rw [if_pos h, if_neg he, abs_le]
      push_cast
      constructor <;> linarith
  · rw [if_neg h, abs_sub_comm]
    exact abs_sub_round x

/-- `round(x, 5)` moves a rational by at most `5e-6`. -/
theorem pyRound5_abs_le (x : ℚ) : |pyRound5 x - x| ≤ 1 / 200000 := by
  unfold pyRound5
  have h := pyRoundInt_abs_le (x * 100000)
  rw [abs_le] at h ⊢
  constructor <;> [linarith; linarith]

/-- Sum of a bucket field over all per-operation buckets. -/
def opSum (l : List (String × Usage)) (f : Usage → ℚ) : ℚ :=
  (l.map (fun p => f p.2)).sum

/-- Modifying a bucket does not change the key list. -/
theorem keys_map_modify (op : String) (φ : Usage → Usage) :
    ∀ l : List (String × Usage),
      (l.map (fun p => if p.1 = op then (p.1, φ p.2) else p)).map Prod.fst =
        l.map Prod.fst := by
  intro l
  induction l with
  | nil => rfl
  | cons a t ih =>
    by_cases hk : a.1 = op
    · rw [List.map_cons, if_pos hk, List.map_cons, ih, List.map_cons]
    · rw [List.map_cons, if_neg hk, List.map_cons, ih, List.map_cons]

/-- A key on which `any` fails does not occur among the keys. -/
theorem not_mem_keys_of_not_any (op : String) :
    ∀ l : List (String × Usage), l.any (fun p => p.1 = op) = false →
      op ∉ l.map Prod.fst := by
  intro l
  induction l with
  | nil => intro _ h; exact absurd h (by simp)
  | cons a t ih =>
    intro h hmem
    rw [List.any_cons, Bool.or_eq_false_iff] at h
    rw [List.map_cons, List.mem_cons] at hmem
    rcases hmem with hmem | hmem
    · exact of_decide_eq_false h.1 hmem.symm
    · exact ih h.2 hmem

/-- With distinct keys, modifying the bucket of a present key changes the
field sum by exactly the change of that one bucket. -/
theorem opSum_map_modify (op : String) (φ : Usage → Usage) (f : Usage → ℚ) :
    ∀ l : List (String × Usage),
      (l.map Prod.fst).Nodup →
      ∀ v, List.lookup op l = some v →
        opSum (l.map (fun p => if p.1 = op then (p.1, φ p.2) else p)) f =
          opSum l f + (f (φ v) - f v) := by
  intro l
  induction l with
  | nil => intro _ v h; exact absurd h (by simp)
  | cons a t ih =>
    intro hnd v h
    rw [List.map_cons, List.nodup_cons] at hnd
    by_cases hb : op = a.1
    · have hbe : (op == a.1) = true := beq_iff_eq.mpr hb
      simp only [List.lookup, hbe] at h
      have hv : v = a.2 := (Option.some_inj.mp h).symm
      have hnot : op ∉ t.map Prod.fst := hb ▸ hnd.1
      rw [List.map_cons, if_pos hb.symm,
        map_modify_of_not_mem op φ t hnot, hv]
      simp only [opSum, List.map_cons, List.sum_cons]
      ring
    · have hbe : (op == a.1) = false := beq_eq_false_iff_ne.mpr hb
      simp only [List.lookup, hbe] at h
      rw [List.map_cons, if_neg (fun hc => hb hc.symm)]
      simp only [opSum, List.map_cons, List.sum_cons]
      rw [show ((t.map (fun p => if p.1 = op then (p.1, φ p.2) else p)).map
          (fun p => f p.2)).sum =
          opSum (t.map (fun p => if p.1 = op then (p.1, φ p.2) else p)) f
        from rfl, ih hnd.2 v h]
      simp only [opSum]
      ring

/-- One `update` call moves every per-operation field sum by exactly the
increment of the touched bucket: the five unrounded fields by the meta
value itself, `total_cost` by the meta value plus a rounding error of at
most `5e-6`; distinct keys stay distinct. -/
theorem update_step_sums (s : UsageStats) (meta : UsageMeta) (op : String)
    (hnd : (s.operation_usage.map Prod.fst).Nodup) :
    ((s.update meta op).operation_usage.map Prod.fst).Nodup ∧
    opSum (s.update meta op).operation_usage (fun u => u.input_tokens) =
      opSum s.operation_usage (fun u => u.input_tokens) +
        meta.input_tokens.getD 0 ∧
    opSum (s.update meta op).operation_usage (fun u => u.output_tokens) =
      opSum s.operation_usage (fun u => u.output_tokens) +
        meta.output_tokens.getD 0 ∧
    opSum (s.update meta op).operation_usage (fun u => u.total_tokens) =
      opSum s.operation_usage (fun u => u.total_tokens) +
        meta.total_tokens.getD 0 ∧
    opSum (s.update meta op).operation_usage (fun u => u.input_cost) =
      opSum s.operation_usage (fun u => u.input_cost) +
        meta.input_cost.getD 0 ∧
    opSum (s.update meta op).operation_usage (fun u => u.output_cost) =
      opSum s.operation_usage (fun u => u.output_cost) +
        meta.output_cost.getD 0 ∧
    ∃ e : ℚ, |e| ≤ 1 / 200000 ∧
      opSum (s.update meta op).operation_usage (fun u => u.total_cost) =
        opSum s.operation_usage (fun u => u.total_cost) +
          meta.total_cost.getD 0 + e := by
  by_cases hany : s.operation_usage.any (fun p => p.1 = op) = true
  · have hop : (s.update meta op).operation_usage =
        s.operation_usage.map
          (fun p => if p.1 = op then (p.1, p.2.addMeta meta) else p) := by
      simp only [UsageStats.update]
      rw [if_pos hany]
    obtain ⟨v, hv⟩ := lookup_of_any op s.operation_usage hany
    refine ⟨?_, ?_, ?_, ?_, ?_, ?_, ?_⟩
    · rw [hop, keys_map_modify op (fun u => u.addMeta meta) s.operation_usage]
      exact hnd
    · rw [hop, opSum_map_modify op (fun u => u.addMeta meta)
        (fun u => u.input_tokens) s.operation_usage hnd v hv]
      simp only [Usage.addMeta]
      ring
    · rw [hop, opSum_map_modify op (fun u => u.addMeta meta)
        (fun u => u.output_tokens) s.operation_usage hnd v hv]
      simp only [Usage.addMeta]
      ring
    · rw [hop, opSum_map_modify op (fun u => u.addMeta meta)
        (fun u => u.total_tokens) s.operation_usage hnd v hv]
      simp only [Usage.addMeta]
      ring
    · rw [hop, opSum_map_modify op (fun u => u.addMeta meta)
        (fun u => u.input_cost) s.operation_usage hnd v hv]
      simp only [Usage.addMeta]
      ring
    · rw [hop, opSum_map_modify op (fun u => u.addMeta meta)
        (fun u => u.output_cost) s.operation_usage hnd v hv]
      simp only [Usage.addMeta]
      ring
    · refine ⟨pyRound5 (v.total_cost + meta.total_cost.getD 0) -
        (v.total_cost + meta.total_cost.getD 0),
        pyRound5_abs_le _, ?_⟩
      rw [hop, opSum_map_modify op (fun u => u.addMeta meta)
        (fun u => u.total_cost) s.operation_usage hnd v hv]
      simp only [Usage.addMeta]
      ring
  · have hop : (s.update meta op).operation_usage =
        s.operation_usage ++ [(op, Usage.zero.addMeta meta)] := by
      simp only [UsageStats.update]
      rw [if_neg hany]
    have hnotin : op ∉ s.operation_usage.map Prod.fst :=
      not_mem_keys_of_not_any op s.operation_usage
        (Bool.not_eq_true _ ▸ Bool.of_not_eq_true hany)
    refine ⟨?_, ?_, ?_, ?_, ?_, ?_, ?_⟩
    · rw [hop, List.map_append]
      refine List.Nodup.append hnd (List.nodup_singleton _) ?_
      intro a ha hb
      rw [List.map_cons, List.map_nil, List.mem_singleton] at hb
      have hb' : a = op := hb
      rw [hb'] at ha
      exact hnotin ha
    · rw [hop]
      simp only [opSum, List.map_append, List.sum_append, List.map_cons,
        List.map_nil, List.sum_cons, List.sum_nil, Usage.addMeta, Usage.zero]
      ring
    · rw [hop]
      simp only [opSum, List.map_append, List.sum_append, List.map_cons,
        List.map_nil, List.sum_cons, List.sum_nil, Usage.addMeta, Usage.zero]
      ring
    · rw [hop]
      simp only [opSum, List.map_append, List.sum_append, List.map_cons,
        List.map_nil, List.sum_cons, List.sum_nil, Usage.addMeta, Usage.zero]
      ring
    · rw [hop]
      simp only [opSum, List.map_append, List.sum_append, List.map_cons,
        List.map_nil, List.sum_cons, List.sum_nil, Usage.addMeta, Usage.zero]
      ring
    · rw [hop]
      simp only [opSum, List.map_append, List.sum_append, List.map_cons,
        List.map_nil, List.sum_cons, List.sum_nil, Usage.addMeta, Usage.zero]
      ring
    · refine ⟨pyRound5 (0 + meta.total_cost.getD 0) -
        (0 + meta.total_cost.getD 0), pyRound5_abs_le _, ?_⟩
      rw [hop]
      simp only [opSum, List.map_append, List.sum_append, List.map_cons,
        List.map_nil, List.sum_cons, List.sum_nil, Usage.addMeta, Usage.zero]
      ring

/-- Invariant carried through a history of `update` calls: distinct bucket
keys, global unrounded fields exactly equal to the bucket sums, and the
global `total_cost` within `n * 1e-5` of the bucket `total_cost` sum after
`n` accumulated roundings. -/
theorem updates_invariant :
    ∀ (ms : List (UsageMeta × String)) (s : UsageStats) (n : ℕ),
      (s.operation_usage.map Prod.fst).Nodup →
      s.total_usage.input_tokens =
        opSum s.operation_usage (fun u => u.input_tokens) →
      s.total_usage.output_tokens =
        opSum s.operation_usage (fun u => u.output_tokens) →
      s.total_usage.total_tokens =
        opSum s.operation_usage (fun u => u.total_tokens) →
      s.total_usage.input_cost =
        opSum s.operation_usage (fun u => u.input_cost) →
      s.total_usage.output_cost =
        opSum s.operation_usage (fun u => u.output_cost) →
      |s.total_usage.total_cost -
        opSum s.operation_usage (fun u => u.total_cost)| ≤
          (n : ℚ) * (1 / 100000) →
      ((UsageStats.updates s ms).operation_usage.map Prod.fst).Nodup ∧
      (UsageStats.updates s ms).total_usage.input_tokens =
        opSum (UsageStats.updates s ms).operation_usage
          (fun u => u.input_tokens) ∧
      (UsageStats.updates s ms).total_usage.output_tokens =
        opSum (UsageStats.updates s ms).operation_usage
          (fun u => u.output_tokens) ∧
      (UsageStats.updates s ms).total_usage.total_tokens =
        opSum (UsageStats.updates s ms).operation_usage
          (fun u => u.total_tokens) ∧
      (UsageStats.updates s ms).total_usage.input_cost =
        opSum (UsageStats.updates s ms).operation_usage
          (fun u => u.input_cost) ∧
      (UsageStats.updates s ms).total_usage.output_cost =
        opSum (UsageStats.updates s ms).operation_usage
          (fun u => u.output_cost) ∧
      |(UsageStats.updates s ms).total_usage.total_cost -
        opSum (UsageStats.updates s ms).operation_usage
          (fun u => u.total_cost)| ≤
            ((n : ℚ) + (ms.length : ℚ)) * (1 / 100000) := by
  intro ms
  induction ms with
  | nil =>
    intro s n hnd h1 h2 h3 h4 h5 hb
    refine ⟨hnd, h1, h2, h3, h4, h5, ?_⟩
    simpa using hb
  | cons m t ih =>
    intro s n hnd h1 h2 h3 h4 h5 hb
    obtain ⟨hnd', hs1, hs2, hs3, hs4, hs5, e, he, hse⟩ :=
      update_step_sums s m.1 m.2 hnd
    have hu : UsageStats.updates s (m :: t) =
        UsageStats.updates (s.update m.1 m.2) t := rfl
    have hg6 : (s.update m.1 m.2).total_usage.total_cost =
        pyRound5 (s.total_usage.total_cost + m.1.total_cost.getD 0) := rfl
    have hb' : |(s.update m.1 m.2).total_usage.total_cost -
        opSum (s.update m.1 m.2).operation_usage (fun u => u.total_cost)| ≤
          ((n + 1 : ℕ) : ℚ) * (1 / 100000) := by
      have he2 := pyRound5_abs_le
        (s.total_usage.total_cost + m.1.total_cost.getD 0)
      rw [hg6, hse]
      rw [abs_le] at he he2 hb ⊢
      push_cast
      constructor <;> linarith [he.1, he.2, he2.1, he2.2, hb.1, hb.2]
    have hih := ih (s.update m.1 m.2) (n + 1) hnd'
      (by
        have hg : (s.update m.1 m.2).total_usage.input_tokens =
          s.total_usage.input_tokens + m.1.input_tokens.getD 0 := rfl
        rw [hg, hs1, h1])
      (by
        have hg : (s.update m.1 m.2).total_usage.output_tokens =
          s.total_usage.output_tokens + m.1.output_tokens.getD 0 := rfl
        rw [hg, hs2, h2])
      (by
        have hg : (s.update m.1 m.2).total_usage.total_tokens =
          s.total_usage.total_tokens + m.1.total_tokens.getD 0 := rfl
        rw [hg, hs3, h3])
      (by
        have hg : (s.update m.1 m.2).total_usage.input_cost =
          s.total_usage.input_cost + m.1.input_cost.getD 0 := rfl
        rw [hg, hs4, h4])
      (by
        have hg : (s.update m.1 m.2).total_usage.output_cost =
          s.total_usage.output_cost + m.1.output_cost.getD 0 := rfl
        rw [hg, hs5, h5])
      hb'
    rw [hu]
    refine ⟨hih.1, hih.2.1, hih.2.2.1, hih.2.2.2.1, hih.2.2.2.2.1,
      hih.2.2.2.2.2.1, ?_⟩
    have hlen : ((n : ℚ) + (((m :: t).length : ℕ) : ℚ)) =
        (((n + 1 : ℕ) : ℚ) + ((t.length : ℕ) : ℚ)) := by
      push_cast [List.length_cons]
      ring
    rw [hlen]
    exact hih.2.2.2.2.2.2

/-- **C10.** Starting from a fresh `UsageStats`, after every sequence of
`update` calls each token field of the global total equals the sum of that
field over all per-operation buckets exactly, the two unrounded cost
fields do too, and the global `total_cost` matches the bucket sum up to
the accumulated per-update rounding (at most `1e-5` per update). -/
theorem C10_global_total_matches_bucket_sums
    (ms : List (UsageMeta × String)) :
    (UsageStats.updates UsageStats.init ms).total_usage.input_tokens =
      opSum (UsageStats.updates UsageStats.init ms).operation_usage
        (fun u => u.input_tokens) ∧
    (UsageStats.updates UsageStats.init ms).total_usage.output_tokens =
      opSum (UsageStats.updates UsageStats.init ms).operation_usage
        (fun u => u.output_tokens) ∧
    (UsageStats.updates UsageStats.init ms).total_usage.total_tokens =
      opSum (UsageStats.updates UsageStats.init ms).operation_usage
        (fun u => u.total_tokens) ∧
    (UsageStats.updates UsageStats.init ms).total_usage.input_cost =
      opSum (UsageStats.updates UsageStats.init ms).operation_usage
        (fun u => u.input_cost) ∧
    (UsageStats.updates UsageStats.init ms).total_usage.output_cost =
      opSum (UsageStats.updates UsageStats.init ms).operation_usage
        (fun u => u.output_cost) ∧
    |(UsageStats.updates UsageStats.init ms).total_usage.total_cost -
      opSum (UsageStats.updates UsageStats.init ms).operation_usage
        (fun u => u.total_cost)| ≤ (ms.length : ℚ) * (1 / 100000) := by
  have h := updates_invariant ms UsageStats.init 0 List.nodup_nil rfl rfl rfl
    rfl rfl (by simp [UsageStats.init, opSum, Usage.zero])
  refine ⟨h.2.1, h.2.2.1, h.2.2.2.1, h.2.2.2.2.1, h.2.2.2.2.2.1, ?_⟩
  have := h.2.2.2.2.2.2
  rw [Nat.cast_zero, zero_add] at this
  exact this
